import Mathlib

/-!
Shallow embedding of the movie-catalog cleaning and dual-store load pipeline
(`solution/database/preprocessing/data_cleaning.py`,
`solution/database/setupper/postgres_setup.py`,
`solution/database/setupper/mongo_setup.py`,
`solution/database/databases_setup.py`,
`solution/ium-data-analysis/utils.py`).

Python floats are modelled as exact rationals (`ℚ`), the float `nan` as a
distinguished constructor, and fallible Python code as `Except String`.
String primitives are modelled structurally over `List Char` so that every
definition evaluates inside the kernel.
-/

namespace Spec2Proof

instance {ε α : Type} [DecidableEq ε] [DecidableEq α] : DecidableEq (Except ε α) := fun a b =>
  match a, b with
  | .ok x, .ok y => decidable_of_iff (x = y) (by simp)
  | .ok _, .error _ => .isFalse (by simp)
  | .error _, .ok _ => .isFalse (by simp)
  | .error x, .error y => decidable_of_iff (x = y) (by simp)

/-- Model of the Python scalar values that flow through the score column:
`int`, non-nan `float` (as an exact rational), the float `nan` (which also
stands for pandas' null markers after cleaning), and `str`. -/
inductive PyVal where
  | int (i : Int)
  | float (q : ℚ)
  | nan
  | str (s : String)
deriving DecidableEq, Repr

/-- Whitespace stripped from both ends of a character list, the model of
Python/Lean `strip`/`trim`. -/
def trimChars (cs : List Char) : List Char :=
  ((cs.dropWhile Char.isWhitespace).reverse.dropWhile Char.isWhitespace).reverse

/-- Model of Python `value.split('/')`: split at every slash, keeping empty
pieces, exactly as `str.split` with an explicit separator does. -/
def splitOnSlash : List Char → List Char → List (List Char)
  | [], acc => [acc.reverse]
  | c :: rest, acc =>
      if c = '/' then acc.reverse :: splitOnSlash rest []
      else splitOnSlash rest (c :: acc)

/-- Multiplication of rationals written through `Rat.divInt` so that it
evaluates inside the kernel; `qmul_eq` proves it is ordinary multiplication. -/
def qmul (a b : ℚ) : ℚ := Rat.divInt (a.num * b.num) ((a.den : ℤ) * b.den)

/-- Division of rationals written through `Rat.divInt` so that it evaluates
inside the kernel; `qdiv_eq` proves it is ordinary division. -/
def qdiv (a b : ℚ) : ℚ := Rat.divInt (a.num * (b.den : ℤ)) ((a.den : ℤ) * b.num)

/-- Letter-grade map of `converter` in `solution/ium-data-analysis/utils.py`
(`mappa_lettere`); whole grades are Python ints, half grades floats
(`mkRat 17 2` is the exact value of the float `8.5`, and so on). -/
def mappa_lettere : List (String × PyVal) :=
  [("A", .int 10), ("A-", .int 9), ("B+", .float (mkRat 17 2)), ("B", .int 8),
   ("B-", .float (mkRat 15 2)), ("C+", .int 7), ("C", .int 6), ("C-", .float (mkRat 11 2)),
   ("D+", .int 5), ("D", .int 4), ("D-", .float (mkRat 7 2)), ("F", .int 1)]

/-- Numeric value of a decimal digit string (most significant first). -/
def digitsToNat (cs : List Char) : Nat :=
  cs.foldl (fun a c => a * 10 + (c.toNat - 48)) 0

/-- Core of the model of Python `float(...)` string parsing: an unsigned
decimal numeral, optionally with a fractional part. -/
def pyFloatCore (cs : List Char) : Option ℚ :=
  let ip := cs.takeWhile Char.isDigit
  let rest := cs.dropWhile Char.isDigit
  match rest with
  | [] => if ip.isEmpty then none else some (Rat.divInt (digitsToNat ip) 1)
  | '.' :: fp =>
      if fp.all Char.isDigit && !(ip.isEmpty && fp.isEmpty) then
        some (Rat.divInt (digitsToNat (ip ++ fp)) (10 ^ fp.length))
      else none
  | _ => none

/-- Model of Python `float(str)`: surrounding whitespace stripped, optional
sign, decimal numeral; `none` models the `ValueError` that `converter`
catches. -/
def pyFloat (cs : List Char) : Option ℚ :=
  match trimChars cs with
  | '-' :: rest => (pyFloatCore rest).map (fun q => -q)
  | '+' :: rest => pyFloatCore rest
  | t => pyFloatCore t

/-- Nearest integer with ties to even, the rounding of Python `round`.
With `f = ⌊q⌋`, the integer `c = 2 * q.num - (2 * f + 1) * q.den` has the
sign of `(q - f) - 1/2` (the denominator is positive), so `c < 0` means the
fractional part is below one half, `0 < c` above, and `c = 0` exactly one
half, where the even neighbour is chosen. -/
def roundHalfEven (q : ℚ) : ℤ :=
  if 2 * q.num - (2 * ⌊q⌋ + 1) * (q.den : ℤ) < 0 then ⌊q⌋
  else if 0 < 2 * q.num - (2 * ⌊q⌋ + 1) * (q.den : ℤ) then ⌊q⌋ + 1
  else if ⌊q⌋ % 2 = 0 then ⌊q⌋ else ⌊q⌋ + 1

/-- Model of Python `round(q, 1)`: round to the nearest tenth, ties to even. -/
def pyRound1 (q : ℚ) : ℚ := Rat.divInt (roundHalfEven (qmul q 10)) 10

/-- Fraction branch of `converter`: the `num/denom` handling after the
tuple unpacking succeeded, including the `ValueError`-to-missing fallback
when either side fails to parse as a float. -/
def converterFrac (num denom : List Char) : Except String PyVal :=
  match pyFloat num, pyFloat denom with
  | some a, some d =>
      if d = 0 then .ok .nan
      else if 10 < qmul (qdiv a d) 10 then .ok .nan
      else .ok (.float (pyRound1 (qmul (qdiv a d) 10)))
  | _, _ => .ok .nan

/-- Embedding of `converter` from `solution/ium-data-analysis/utils.py`
(the in-source version of the pipeline's `normalize_score`). A `.error`
result models an uncaught Python exception: the tuple unpacking
`num, denom = value.split('/')` sits outside the `try`, so a string with two
or more slashes raises a `ValueError` that nothing catches. The float `nan`
passes the `type(value) == float` test and fails both range comparisons, so
it is returned as is. -/
def converter (value : PyVal) : Except String PyVal :=
  match value with
  | .int i => if 10 < i || i < 0 then .ok .nan else .ok (.int i)
  | .float q => if 10 < q || q < 0 then .ok .nan else .ok (.float q)
  | .nan => .ok .nan
  | .str s =>
      if s.toList.contains '/' then
        match splitOnSlash s.toList [] with
        | [num, denom] => converterFrac num denom
        | _ => .error "ValueError: too many values to unpack"
      else
        match mappa_lettere.lookup s with
        | some v => .ok v
        | none => .ok .nan

/-- Characters of a trailing parenthetical group, dropped from a reversed
character list: everything up to and including the first `(` seen. -/
def dropUntilParen : List Char → List Char
  | [] => []
  | '(' :: rest => rest
  | _ :: rest => dropUntilParen rest

/-- Removal of a trailing parenthetical such as `" (1999)"`: if the trimmed
character list ends with `)` and contains `(`, everything from the last `(`
on is dropped. -/
def stripParenChars (cs : List Char) : List Char :=
  let t := trimChars cs
  match t.reverse with
  | ')' :: rest => if t.contains '(' then (dropUntilParen rest).reverse else t
  | _ => t

/-- Modelled from the spec: `normalize_title` from
`preprocessing/scripts/normalization.py` is imported by
`data_cleaning.py` but its file is absent from the sources. Per the spec it
case-folds and trims whitespace noise, and with the parenthetical flag set
it first removes a trailing parenthetical (for example a release year), so
that `"Movie (2001)"` and `"movie"` converge to the same canonical string.
It is a pure function of its input. -/
def normalize_title (s : String) (parentesi : Bool) : String :=
  let cs := if parentesi then stripParenChars s.toList else s.toList
  (trimChars (cs.map Char.toLower)).asString

/-- Row of the primary `movies` table: the externally supplied integer `id`
and the raw `name`; the other columns play no part in reconciliation. -/
structure MovieRow where
  id : Int
  name : String
deriving DecidableEq, Repr

/-- Ephemeral canonical match key of a movie row, the `name_clean` column
computed by `match_movie_ids` (`data_cleaning.py`, line 98): the title is
normalized without parenthetical stripping. -/
def name_clean (m : MovieRow) : String := normalize_title m.name false

/-- Worker of `dropDupsBy` with the accumulator of keys already seen. -/
def dropDupsByGo {α : Type} (key : α → String) (seen : List String) : List α → List α
  | [] => []
  | x :: xs =>
      if key x ∈ seen then dropDupsByGo key seen xs
      else x :: dropDupsByGo key (key x :: seen) xs

/-- Model of pandas `drop_duplicates(subset=...)`: keep the first row for
each key value, in order (`data_cleaning.py`, line 107). -/
def dropDupsBy {α : Type} (key : α → String) (xs : List α) : List α :=
  dropDupsByGo key [] xs

/-- Rows a single left row contributes to a pandas left merge against the
deduplicated movie key set: one row per matching movie carrying its `id`,
or a single row with a null key when nothing matches. -/
def matchRow {δ : Type} (movies_unique : List MovieRow) (key : String) (d : δ) :
    List (δ × Option Int) :=
  let ms := movies_unique.filter (fun m => name_clean m = key)
  if ms.isEmpty then [(d, none)] else ms.map (fun m => (d, some m.id))

/-- Model of the `how='left'` merge of a dependent dataset against
`movies_unique[['id', 'name_clean']]` in `match_movie_ids`
(`data_cleaning.py`, lines 110 and 120): each dependent row is joined on its
cleaned title; the ephemeral key columns are dropped afterwards, leaving the
row together with its new nullable `id`. -/
def leftMergeId {δ : Type} (deps : List δ) (depKey : δ → String)
    (movies_unique : List MovieRow) : List (δ × Option Int) :=
  deps.flatMap (fun d => matchRow movies_unique (depKey d) d)

/-- Column rename applied by `prepare_for_database` (`data_cleaning.py`,
lines 143 and 144): for every dataset other than `movies` that has an `id`
column, pandas `rename(columns={'id': 'id_movie'})` maps each column label
`id` to `id_movie`. -/
def prepare_rename (name : String) (cols : List String) : List String :=
  if name ≠ "movies" && cols.contains "id" then
    cols.map (fun c => if c = "id" then "id_movie" else c)
  else cols

/-- Tabular dataset: named columns and rows of cells (`pandas.DataFrame`). -/
structure Frame where
  columns : List String
  rows : List (List PyVal)
deriving DecidableEq, Repr

/-- Model of `df.replace({pd.NA: None})` (`data_cleaning.py`, line 147):
both pandas missing markers and `None` are the single `PyVal.nan` in this
model, so the replacement maps every cell to itself with nulls unified. -/
def replaceNA (f : Frame) : Frame :=
  { f with rows := f.rows.map (List.map (fun v => if v = .nan then .nan else v)) }

/-- Model of `df.empty`: true when there are no rows or no columns. -/
def frameEmpty (f : Frame) : Bool := f.rows.isEmpty || f.columns.isEmpty

/-- Embedding of `DataCleaner.prepare_for_database` (`data_cleaning.py`,
lines 136 to 158) over the name-keyed dataset collection: in order, each
dataset other than `movies` has its `id` column renamed to `id_movie`, nulls
are unified, and a dataset that is empty afterwards raises `ValueError`,
aborting the whole preparation. -/
def prepare_for_database : List (String × Frame) → Except String (List (String × Frame))
  | [] => .ok []
  | (name, df) :: rest =>
      let df1 : Frame := { df with columns := prepare_rename name df.columns }
      let df2 := replaceNA df1
      if frameEmpty df2 then
        .error ("Il dataset " ++ name ++ " è vuoto.")
      else
        match prepare_for_database rest with
        | .error e => .error e
        | .ok rest' => .ok ((name, df2) :: rest')

/-- Sizes of the slices `data[i:i+b]` taken by `range(0, n, b)` for a
positive step `b`; the first argument is fuel bounding the recursion depth
by the remaining length. -/
def chunkSizesAux (fuel n b : Nat) : List Nat :=
  match fuel with
  | 0 => []
  | fuel + 1 =>
      if n = 0 then []
      else if n ≤ b then [n]
      else b :: chunkSizesAux fuel (n - b) b

/-- Batch sizes submitted for `n` rows at batch size `b`. The batch size is
an `Int` because `self.batch_size = int(os.getenv(..., '1000'))` is an
arbitrary Python int: `range(0, n, b)` with a negative step and `0 < n` is
empty, so no batch at all is submitted; the zero-step `ValueError` is
raised by the caller before this list is consulted. -/
def chunkSizes (n : Nat) (b : Int) : List Nat :=
  if b ≤ 0 then [] else chunkSizesAux n n b.toNat

/-- Embedding of `PostgreSQLSetup.insert_dataframe`
(`postgres_setup.py`, lines 188 to 235) on the row count `n` of the input,
for an execution in which the database raises no error: an empty input
returns `0` at once; a zero batch size makes Python `range` raise
`ValueError` (caught by the generic handler and re-raised after rollback);
otherwise `total_inserted` accumulates the length of every submitted batch,
and the `total_inserted == 0` branch raises `Inserimento fallito`. With a
negative batch size `range(0, n, b)` is empty, no batch is submitted, and
that zero-total branch fires. -/
def pg_insert_dataframe (n : Nat) (b : Int) : Except String Nat :=
  if n = 0 then .ok 0
  else if b = 0 then .error "ValueError: range() arg 3 must not be zero"
  else
    let total_inserted := (chunkSizes n b).sum
    if total_inserted = 0 then .error "Inserimento fallito"
    else .ok total_inserted

/-- Embedding of `MongoDBSetup.insert_dataframe` (`mongo_setup.py`, lines
90 to 119) on the row count `n`, for an execution in which no batch raises:
an empty input returns `0` at once; otherwise the batch loop accumulates
the length of every submitted batch and the total is returned with no
zero-total check (a negative batch size therefore returns `0`). -/
def mongo_insert_dataframe (n : Nat) (b : Int) : Except String Nat :=
  if n = 0 then .ok 0
  else if b = 0 then .error "ValueError: range() arg 3 must not be zero"
  else .ok (chunkSizes n b).sum

/-- The `(data_key, table_name)` pairs of the structured load loop in
`databases_setup.main` (`databases_setup.py`, lines 126 to 137). -/
def pg_tables : List (String × String) :=
  [("movies", "movies"), ("actors", "actors"), ("crew", "crews"),
   ("countries", "countries"), ("genres", "genres"), ("languages", "languages"),
   ("studios", "studios"), ("themes", "themes"), ("releases", "releases"),
   ("posters", "posters")]

/-- Embedding of the structured load loop of `databases_setup.main`
(`databases_setup.py`, lines 139 to 156), carrying `pg_total`: a dataset
missing from the cleaned collection skips the insert; an empty dataset hits
`continue`, which also skips the `pg_total == 0` check at the bottom of the
iteration; an insert returning `0` raises; after each non-skipped iteration
a still-zero `pg_total` raises. -/
def pgLoop (cleaned : List (String × Frame)) (b : Int) :
    List (String × String) → Nat → Except String Nat
  | [], total => .ok total
  | (key, _) :: rest, total =>
      match cleaned.lookup key with
      | some df =>
          if frameEmpty df then pgLoop cleaned b rest total
          else
            match pg_insert_dataframe df.rows.length b with
            | .error e => .error e
            | .ok ins =>
                if ins = 0 then .error "Inserimento fallito per tabella"
                else if total + ins = 0 then .error "Nessun record inserito in PostgreSQL."
                else pgLoop cleaned b rest (total + ins)
      | none =>
          if total = 0 then .error "Nessun record inserito in PostgreSQL."
          else pgLoop cleaned b rest total

/-- The whole structured (PostgreSQL) load of `databases_setup.main`:
the loop over `pg_tables` starting from a zero total. -/
def pgLoad (cleaned : List (String × Frame)) (b : Int) : Except String Nat :=
  pgLoop cleaned b pg_tables 0

/-- One step of the document load of `databases_setup.main`: when the named
dataset is present it is inserted and a zero insert count raises with the
step's message; when absent the step contributes zero. -/
def mongoInsertIfPresent (cleaned : List (String × Frame)) (b : Int)
    (key emsg : String) : Except String Nat :=
  match cleaned.lookup key with
  | some df =>
      match mongo_insert_dataframe df.rows.length b with
      | .error e => .error e
      | .ok ins => if ins = 0 then .error emsg else .ok ins
  | none => .ok 0

/-- Embedding of the document (MongoDB) load of `databases_setup.main`
(`databases_setup.py`, lines 180 to 199): reviews then oscars are inserted
when present, a zero insert count for a present dataset raises, and a zero
cumulative `mongo_total` raises after both. -/
def mongoLoad (cleaned : List (String × Frame)) (b : Int) : Except String Nat :=
  match mongoInsertIfPresent cleaned b "rotten_tomatoes_reviews" "Inserimento recensioni fallito." with
  | .error e => .error e
  | .ok t1 =>
      match mongoInsertIfPresent cleaned b "the_oscar_awards" "Inserimento Oscar fallito" with
      | .error e => .error e
      | .ok t2 =>
          if t1 + t2 = 0 then .error "Nessun record inserito in MongoDB"
          else .ok (t1 + t2)

/-- Both sink loads of `databases_setup.main` in order: the structured load
first, then the document load; any raise aborts the run. -/
def mainLoads (cleaned : List (String × Frame)) (b : Int) :
    Except String (Nat × Nat) :=
  match pgLoad cleaned b with
  | .error e => .error e
  | .ok pg =>
      match mongoLoad cleaned b with
      | .error e => .error e
      | .ok mg => .ok (pg, mg)

/-- Nullable-integer cell for the merged foreign key after
`astype('Int64')`: a match carries the movie id, a miss the null marker. -/
def idVal : Option Int → PyVal
  | some i => .int i
  | none => .nan

/-- Embedding of `DataCleaner.run_cleaning` followed by the document
conversion of the review rows, for a run whose loaded data holds exactly
the datasets `movies` and `rotten_tomatoes_reviews`, with review rows given
as `(movie_title, review_score)` cells. In order: `clean_invalid_films`
drops rows with a missing title; `normalize_data` maps `review_score`
through the score normalizer (`converter`, the in-source version of
`normalize_score`); `match_movie_ids` left-joins on the cleaned titles
against the title-deduplicated movies; `prepare_for_database` renames the
merged `id` column to `id_movie` and checks non-emptiness; finally each row
becomes a document keyed by the column names, as `to_dict('records')`
does in `MongoDBSetup.insert_dataframe`. -/
def run_cleaning_reviews (movies : List MovieRow) (reviews : List (PyVal × PyVal)) :
    Except String (List (List (String × PyVal))) := do
  let reviews1 := reviews.filter (fun r => r.1 ≠ .nan)
  let reviews2 ← reviews1.mapM (fun r => do
    let sc ← converter r.2
    Except.ok (r.1, sc))
  let reviews3 ← reviews2.mapM (fun r =>
    match r.1 with
    | .str t => Except.ok (t, r.2)
    | _ => Except.error "TypeError: normalize_title expects a string title")
  let movies_unique := dropDupsBy name_clean movies
  let merged := leftMergeId reviews3 (fun r => normalize_title r.1 true) movies_unique
  let cols := prepare_rename "rotten_tomatoes_reviews" ["movie_title", "review_score", "id"]
  let docs := merged.map (fun rv => cols.zip [.str rv.1.1, rv.1.2, idVal rv.2])
  if movies.isEmpty then .error "Il dataset movies è vuoto."
  else if docs.isEmpty then .error "Il dataset rotten_tomatoes_reviews è vuoto."
  else .ok docs

/-- Numeric reading of a `converter` output, for re-feeding it to the
normalizer as a plain number: an int or a float reads as its rational
value, the missing marker and strings do not. -/
def numVal : PyVal → Option ℚ
  | .int i => some (i : ℚ)
  | .float q => some q
  | .nan => none
  | .str _ => none

/-- Bounds check on one letter-grade value, as a computable test. -/
def valInRange : PyVal → Bool
  | .int i => decide (0 ≤ i ∧ i ≤ 10)
  | .float q => decide (0 ≤ q ∧ q ≤ 10)
  | _ => true

theorem qmul_eq (a b : ℚ) : qmul a b = a * b := by
  unfold qmul
  rw [Rat.divInt_eq_div]
  push_cast
  rw [← div_mul_div_comm, Rat.num_div_den, Rat.num_div_den]

theorem qdiv_eq (a b : ℚ) : qdiv a b = a / b := by
  unfold qdiv
  rw [Rat.divInt_eq_div]
  push_cast
  rw [← div_mul_div_comm, Rat.num_div_den, ← inv_div, Rat.num_div_den, ← div_eq_mul_inv]

theorem dropDupsByGo_filter {α : Type} (key : α → String) (t : String)
    (xs : List α) : ∀ seen : List String,
    (dropDupsByGo key seen xs).filter (fun a => key a = t) =
      if t ∈ seen then []
      else
        match xs.find? (fun a => key a = t) with
        | some a => [a]
        | none => [] := by
  induction xs with
  | nil => intro seen; simp [dropDupsByGo]
  | cons x xs ih =>
      intro seen
      by_cases hx : key x ∈ seen
      · rw [dropDupsByGo, if_pos hx, ih]
        by_cases ht : t ∈ seen
        · rw [if_pos ht, if_pos ht]
        · have hxt : ¬ key x = t := fun he => ht (he ▸ hx)
          rw [if_neg ht, if_neg ht, List.find?_cons_of_neg _ (by simpa using hxt)]
      · rw [dropDupsByGo, if_neg hx]
        by_cases hxt : key x = t
        · subst hxt
          rw [List.filter_cons_of_pos (by simp), ih, if_pos (List.mem_cons_self _ _),
            if_neg hx, List.find?_cons_of_pos _ (by simp)]
        · rw [List.filter_cons_of_neg (by simpa using hxt), ih,
            List.find?_cons_of_neg _ (by simpa using hxt)]
          by_cases ht : t ∈ seen
          · rw [if_pos ht, if_pos (List.mem_cons_of_mem _ ht)]
          · have hnm : t ∉ key x :: seen := by
              intro hm
              rcases List.mem_cons.mp hm with he | hs
              · exact hxt he.symm
              · exact ht hs
            rw [if_neg ht, if_neg hnm]

theorem dropDupsBy_filter {α : Type} (key : α → String) (t : String) (xs : List α) :
    (dropDupsBy key xs).filter (fun a => key a = t) =
      match xs.find? (fun a => key a = t) with
      | some a => [a]
      | none => [] := by
  rw [dropDupsBy, dropDupsByGo_filter]
  simp

theorem matchRow_dedup_found {δ : Type} (movies : List MovieRow) (t : String)
    (m₀ : MovieRow) (d : δ) (h : movies.find? (fun m => name_clean m = t) = some m₀) :
    matchRow (dropDupsBy name_clean movies) t d = [(d, some m₀.id)] := by
  rw [matchRow, dropDupsBy_filter name_clean t movies, h]
  simp

theorem matchRow_dedup_none {δ : Type} (movies : List MovieRow) (t : String)
    (d : δ) (h : movies.find? (fun m => name_clean m = t) = none) :
    matchRow (dropDupsBy name_clean movies) t d = [(d, none)] := by
  rw [matchRow, dropDupsBy_filter name_clean t movies, h]
  simp

theorem matchRow_dedup_length {δ : Type} (movies : List MovieRow) (t : String)
    (d : δ) : (matchRow (dropDupsBy name_clean movies) t d).length = 1 := by
  cases h : movies.find? (fun m => name_clean m = t) with
  | some m₀ => rw [matchRow_dedup_found movies t m₀ d h]; rfl
  | none => rw [matchRow_dedup_none movies t d h]; rfl

theorem leftMergeId_dedup_length {δ : Type} (deps : List δ) (depKey : δ → String)
    (movies : List MovieRow) :
    (leftMergeId deps depKey (dropDupsBy name_clean movies)).length = deps.length := by
  induction deps with
  | nil => rfl
  | cons d deps ih =>
      rw [leftMergeId] at ih ⊢
      rw [List.flatMap_cons, List.length_append, ih, matchRow_dedup_length,
        List.length_cons]
      omega

theorem map_rename_id_of_not_contains (cols : List String)
    (h : cols.contains "id" = false) :
    cols.map (fun c => if c = "id" then "id_movie" else c) = cols := by
  induction cols with
  | nil => rfl
  | cons c cols ih =>
      rw [List.contains_cons, Bool.or_eq_false_iff] at h
      have hne : ¬ c = "id" := by
        intro hc
        rw [hc] at h
        exact absurd h.1 (by simp)
      rw [List.map_cons, if_neg hne, ih h.2]

theorem prepare_for_database_ok (data out : List (String × Frame))
    (h : prepare_for_database data = .ok out) :
    List.Forall₂ (fun p q : String × Frame =>
      q.1 = p.1 ∧ q.2.columns = prepare_rename p.1 p.2.columns ∧
        frameEmpty q.2 = false) data out := by
  induction data generalizing out with
  | nil =>
      rw [prepare_for_database] at h
      cases h
      exact List.Forall₂.nil
  | cons p rest ih =>
      rw [prepare_for_database] at h
      by_cases hne : frameEmpty (replaceNA { p.2 with columns := prepare_rename p.1 p.2.columns })
      · rw [if_pos hne] at h
        exact (Except.noConfusion h)
      · rw [if_neg hne] at h
        cases hr : prepare_for_database rest with
        | error e => rw [hr] at h; exact (Except.noConfusion h)
        | ok rest' =>
            rw [hr] at h
            cases h
            exact List.Forall₂.cons ⟨rfl, rfl, by simpa using hne⟩ (ih _ hr)

theorem forall2_mem_right {α β : Type} {R : α → β → Prop}
    {l₁ : List α} {l₂ : List β} (h : List.Forall₂ R l₁ l₂) :
    ∀ y ∈ l₂, ∃ x ∈ l₁, R x y := by
  induction h with
  | nil => intro y hy; exact absurd hy (by simp)
  | cons hpq _ ih =>
      intro y hy
      rcases List.mem_cons.mp hy with he | hm
      · exact ⟨_, List.mem_cons_self _ _, he ▸ hpq⟩
      · rcases ih y hm with ⟨x, hx, hr⟩
        exact ⟨x, List.mem_cons_of_mem _ hx, hr⟩

theorem lookup_mem {α : Type} [BEq α] [LawfulBEq α] {β : Type}
    (l : List (α × β)) (k : α) (v : β) (h : l.lookup k = some v) : (k, v) ∈ l := by
  induction l with
  | nil => exact absurd h (by simp [List.lookup])
  | cons p rest ih =>
      rw [List.lookup] at h
      split at h
      · rename_i hk
        cases h
        have : k = p.1 := eq_of_beq hk
        subst this
        exact List.mem_cons_self _ _
      · exact List.mem_cons_of_mem _ (ih h)

theorem prepare_lookup_nonempty (raw out : List (String × Frame)) (k : String)
    (df : Frame) (h : prepare_for_database raw = .ok out)
    (hl : out.lookup k = some df) : frameEmpty df = false := by
  have hmem := lookup_mem out k df hl
  have hall := prepare_for_database_ok raw out h
  rcases forall2_mem_right hall _ hmem with ⟨x, _, hr⟩
  exact hr.2.2

theorem pgLoop_pos (cleaned : List (String × Frame)) (b : Int)
    (tbls : List (String × String)) : ∀ total r, 0 < total →
    pgLoop cleaned b tbls total = .ok r → 0 < r := by
  induction tbls with
  | nil =>
      intro total r ht h
      rw [pgLoop] at h
      cases h
      exact ht
  | cons p rest ih =>
      intro total r ht h
      rw [pgLoop] at h
      split at h
      · split at h
        · exact ih total r ht h
        · split at h
          · exact (Except.noConfusion h)
          · split at h
            · exact (Except.noConfusion h)
            · split at h
              · exact (Except.noConfusion h)
              · rename_i ins _ _ hz _
                exact ih _ r (by omega) h
      · split at h
        · exact (Except.noConfusion h)
        · exact ih total r ht h

theorem chunkSizesAux_sum (b : Nat) (hb : 0 < b) :
    ∀ fuel n, n ≤ fuel → (chunkSizesAux fuel n b).sum = n := by
  intro fuel
  induction fuel with
  | zero =>
      intro n hn
      interval_cases n
      rfl
  | succ fuel ih =>
      intro n hn
      rw [chunkSizesAux]
      by_cases h0 : n = 0
      · rw [if_pos h0, h0]; rfl
      · rw [if_neg h0]
        by_cases hnb : n ≤ b
        · rw [if_pos hnb]; simp
        · rw [if_neg hnb, List.sum_cons, ih (n - b) (by omega)]
          omega

theorem chunkSizes_sum (n : Nat) (b : Int) (hb : 0 < b) : (chunkSizes n b).sum = n := by
  rw [chunkSizes, if_neg (by omega)]
  exact chunkSizesAux_sum b.toNat (by omega) n n le_rfl

theorem den_pos_q (q : ℚ) : (0 : ℚ) < (q.den : ℚ) := by
  exact_mod_cast q.pos

theorem num_eq_mul_den (q : ℚ) : (q.num : ℚ) = q * (q.den : ℚ) :=
  (div_eq_iff (ne_of_gt (den_pos_q q))).mp (Rat.num_div_den q)

theorem roundHalfEven_le (q : ℚ) (m : ℤ) (h : q ≤ (m : ℚ)) : roundHalfEven q ≤ m := by
  have hf : ⌊q⌋ ≤ m := by
    have := Int.floor_le_floor h
    rwa [Int.floor_intCast] at this
  have hkey : 0 ≤ 2 * q.num - (2 * ⌊q⌋ + 1) * (q.den : ℤ) → ⌊q⌋ + 1 ≤ m := by
    intro hc
    have h1 : ((2 * ⌊q⌋ + 1 : ℤ) : ℚ) * (q.den : ℚ) ≤ 2 * (q.num : ℚ) := by
      have : ((2 * ⌊q⌋ + 1) * q.den : ℤ) ≤ (2 * q.num : ℤ) := by omega
      exact_mod_cast this
    rw [num_eq_mul_den] at h1
    have h2 : ((2 * ⌊q⌋ + 1 : ℤ) : ℚ) ≤ 2 * q :=
      le_of_mul_le_mul_right (by linarith) (den_pos_q q)
    have h3 : ((2 * ⌊q⌋ + 1 : ℤ) : ℚ) ≤ ((2 * m : ℤ) : ℚ) := by
      push_cast at h2 ⊢
      linarith
    have h4 : (2 * ⌊q⌋ + 1 : ℤ) ≤ 2 * m := by exact_mod_cast h3
    omega
  rw [roundHalfEven]
  split_ifs with h1 h2 h3
  · exact hf
  · exact hkey (by omega)
  · exact hf
  · exact hkey (by omega)

theorem roundHalfEven_nonneg (q : ℚ) (h : 0 ≤ q) : 0 ≤ roundHalfEven q := by
  have hf : 0 ≤ ⌊q⌋ := Int.floor_nonneg.mpr h
  rw [roundHalfEven]
  split_ifs <;> omega

theorem pyRound1_le_ten (q : ℚ) (h : q ≤ 10) : pyRound1 q ≤ 10 := by
  rw [pyRound1, Rat.divInt_eq_div]
  have h1 : qmul q 10 ≤ ((100 : ℤ) : ℚ) := by
    rw [qmul_eq]
    push_cast
    linarith
  have h2 : roundHalfEven (qmul q 10) ≤ 100 := roundHalfEven_le _ 100 h1
  have h3 : ((roundHalfEven (qmul q 10) : ℤ) : ℚ) ≤ 100 := by exact_mod_cast h2
  have h10 : ((10 : ℤ) : ℚ) = 10 := by norm_num
  rw [h10]
  linarith

theorem pyRound1_nonneg (q : ℚ) (h : 0 ≤ q) : 0 ≤ pyRound1 q := by
  rw [pyRound1, Rat.divInt_eq_div]
  have h1 : (0 : ℚ) ≤ qmul q 10 := by
    rw [qmul_eq]
    linarith
  have h2 : 0 ≤ roundHalfEven (qmul q 10) := roundHalfEven_nonneg _ h1
  exact div_nonneg (by exact_mod_cast h2) (by norm_num)

theorem mappa_lettere_bounds : mappa_lettere.all (fun p => valInRange p.2) = true := by
  decide

theorem converterFrac_le_ten (num denom : List Char) (v : PyVal)
    (h : converterFrac num denom = .ok v) :
    (∀ i : ℤ, v = .int i → i ≤ 10) ∧ (∀ q : ℚ, v = .float q → q ≤ 10) := by
  rw [converterFrac] at h
  cases hpn : pyFloat num with
  | none =>
      simp only [hpn] at h
      cases h
      exact ⟨fun _ hi => PyVal.noConfusion hi, fun _ hq => PyVal.noConfusion hq⟩
  | some a =>
      cases hpd : pyFloat denom with
      | none =>
          simp only [hpn, hpd] at h
          cases h
          exact ⟨fun _ hi => PyVal.noConfusion hi, fun _ hq => PyVal.noConfusion hq⟩
      | some d =>
          simp only [hpn, hpd] at h
          by_cases hd : d = 0
          · rw [if_pos hd] at h
            cases h
            exact ⟨fun _ hi => PyVal.noConfusion hi, fun _ hq => PyVal.noConfusion hq⟩
          · rw [if_neg hd] at h
            by_cases hns : 10 < qmul (qdiv a d) 10
            · rw [if_pos hns] at h
              cases h
              exact ⟨fun _ hi => PyVal.noConfusion hi, fun _ hq => PyVal.noConfusion hq⟩
            · rw [if_neg hns] at h
              cases h
              refine ⟨fun _ hi => PyVal.noConfusion hi, fun p hp => ?_⟩
              cases hp
              exact pyRound1_le_ten _ (le_of_not_lt hns)

theorem converter_ok_le_ten (x v : PyVal) (h : converter x = .ok v) :
    (∀ i : ℤ, v = .int i → i ≤ 10) ∧ (∀ q : ℚ, v = .float q → q ≤ 10) := by
  cases x with
  | int i =>
      rw [converter] at h
      split at h
      · cases h
        exact ⟨fun _ hi => PyVal.noConfusion hi, fun _ hq => PyVal.noConfusion hq⟩
      · rename_i hcond
        cases h
        simp only [Bool.or_eq_true, decide_eq_true_eq] at hcond
        refine ⟨fun j hj => ?_, fun _ hq => PyVal.noConfusion hq⟩
        cases hj
        omega
  | float q =>
      rw [converter] at h
      split at h
      · cases h
        exact ⟨fun _ hi => PyVal.noConfusion hi, fun _ hq => PyVal.noConfusion hq⟩
      · rename_i hcond
        cases h
        simp only [Bool.or_eq_true, decide_eq_true_eq] at hcond
        refine ⟨fun _ hi => PyVal.noConfusion hi, fun p hp => ?_⟩
        cases hp
        push_neg at hcond
        exact hcond.1
  | nan =>
      rw [converter] at h
      cases h
      exact ⟨fun _ hi => PyVal.noConfusion hi, fun _ hq => PyVal.noConfusion hq⟩
  | str s =>
      rw [converter] at h
      split at h
      · split at h
        · exact converterFrac_le_ten _ _ v h
        · exact (Except.noConfusion h)
      · cases hl : mappa_lettere.lookup s with
        | some w =>
            rw [hl] at h
            cases h
            have hmem := lookup_mem mappa_lettere s _ hl
            have hb := List.all_eq_true.mp mappa_lettere_bounds _ hmem
            refine ⟨fun i hi => ?_, fun p hp => ?_⟩
            · rw [hi] at hb
              simp only [valInRange, decide_eq_true_eq] at hb
              exact hb.2
            · rw [hp] at hb
              simp only [valInRange, decide_eq_true_eq] at hb
              exact hb.2
        | none =>
            rw [hl] at h
            cases h
            exact ⟨fun _ hi => PyVal.noConfusion hi, fun _ hq => PyVal.noConfusion hq⟩

theorem splitOnSlash_length (cs : List Char) : ∀ acc : List Char,
    (splitOnSlash cs acc).length = cs.count '/' + 1 := by
  induction cs with
  | nil => intro acc; rfl
  | cons c rest ih =>
      intro acc
      rw [splitOnSlash]
      by_cases hc : c = '/'
      · rw [if_pos hc, List.length_cons, ih, hc]
        simp [List.count_cons]
      · rw [if_neg hc, ih]
        simp [List.count_cons, hc]

theorem converterFrac_ok (num denom : List Char) : ∃ v, converterFrac num denom = .ok v := by
  rw [converterFrac]
  split
  · split
    · exact ⟨_, rfl⟩
    · split
      · exact ⟨_, rfl⟩
      · exact ⟨_, rfl⟩
  · exact ⟨_, rfl⟩

theorem converterFrac_float_tenths (num denom : List Char) (v : ℚ)
    (h : converterFrac num denom = .ok (.float v)) : ∃ n : ℤ, v = (n : ℚ) / 10 := by
  rw [converterFrac] at h
  cases hpn : pyFloat num with
  | none =>
      simp only [hpn] at h
      injection h with h2
      exact PyVal.noConfusion h2
  | some a =>
      cases hpd : pyFloat denom with
      | none =>
          simp only [hpn, hpd] at h
          injection h with h2
          exact PyVal.noConfusion h2
      | some d =>
          simp only [hpn, hpd] at h
          by_cases hd : d = 0
          · rw [if_pos hd] at h
            injection h with h2
            exact PyVal.noConfusion h2
          · rw [if_neg hd] at h
            by_cases hns : 10 < qmul (qdiv a d) 10
            · rw [if_pos hns] at h
              injection h with h2
              exact PyVal.noConfusion h2
            · rw [if_neg hns] at h
              injection h with h2
              injection h2 with h3
              refine ⟨roundHalfEven (qmul (qmul (qdiv a d) 10) 10), ?_⟩
              rw [← h3, pyRound1, Rat.divInt_eq_div]
              norm_num

/-- C1: during reconciliation (`match_movie_ids`), for a movie table with
two or more rows whose titles normalize to the same canonical string `t`,
deduplication keeps exactly one representative with that canonical title,
namely the first occurrence `m₀` in load order; and every dependent row
(review or oscar row) whose normalized title equals `t` contributes exactly
one output row to the left merge, carrying `m₀`'s `id`: the foreign key is
non-null and unambiguous, with no row multiplication. -/
theorem reconciliation_dedup_first_seen {δ : Type} (movies : List MovieRow)
    (deps : List δ) (title : δ → String) (t : String) (m₀ : MovieRow)
    (_hdup : 2 ≤ (movies.filter (fun m => name_clean m = t)).length)
    (hfirst : movies.find? (fun m => name_clean m = t) = some m₀) :
    (dropDupsBy name_clean movies).filter (fun m => name_clean m = t) = [m₀] ∧
    ∀ d ∈ deps, normalize_title (title d) true = t →
      matchRow (dropDupsBy name_clean movies) (normalize_title (title d) true) d
        = [(d, some m₀.id)] := by
  constructor
  · rw [dropDupsBy_filter, hfirst]
  · intro d _ ht
    rw [ht]
    exact matchRow_dedup_found movies t m₀ d hfirst

/-- Witness for C1: a movie table in which `"Alpha"` and `" alpha"` share
the canonical title `"alpha"`, and a review row titled `"Alpha (1999)"`:
the merge resolves it to the first-seen movie's id `1`. -/
theorem reconciliation_dedup_first_seen_witness :
    matchRow (dropDupsBy name_clean [⟨1, "Alpha"⟩, ⟨2, " alpha"⟩])
        (normalize_title "Alpha (1999)" true) "Alpha (1999)"
      = [("Alpha (1999)", some 1)] :=
  (reconciliation_dedup_first_seen [⟨1, "Alpha"⟩, ⟨2, " alpha"⟩] ["Alpha (1999)"]
      (fun s => s) "alpha" ⟨1, "Alpha"⟩ (by decide) (by decide)).2
    "Alpha (1999)" (by decide) (by decide)

/-- C2: during reconciliation, the left join keeps every dependent row: the
merged output has exactly as many rows as the dependent dataset, and a
dependent row whose cleaned title matches no movie is kept with a null
foreign key instead of being dropped. -/
theorem reconciliation_left_join_preserves_rows {δ : Type} (movies : List MovieRow)
    (deps : List δ) (title : δ → String) :
    (leftMergeId deps (fun d => normalize_title (title d) true)
        (dropDupsBy name_clean movies)).length = deps.length ∧
    ∀ d ∈ deps, (∀ m ∈ movies, name_clean m ≠ normalize_title (title d) true) →
      matchRow (dropDupsBy name_clean movies) (normalize_title (title d) true) d
        = [(d, none)] := by
  constructor
  · exact leftMergeId_dedup_length deps _ movies
  · intro d _ hnone
    apply matchRow_dedup_none
    rw [List.find?_eq_none]
    intro m hm
    simpa using hnone m hm

/-- Witness for C2: a review titled `"Zeta (2000)"` matches no movie in a
one-movie table and is kept with a null foreign key. -/
theorem reconciliation_left_join_preserves_rows_witness :
    matchRow (dropDupsBy name_clean [⟨1, "Alpha"⟩])
        (normalize_title "Zeta (2000)" true) "Zeta (2000)"
      = [("Zeta (2000)", none)] :=
  (reconciliation_left_join_preserves_rows [⟨1, "Alpha"⟩] ["Zeta (2000)"]
      (fun s => s)).2 "Zeta (2000)" (by decide) (by decide)

/-- C3 counterexample: on the end-to-end scenario (movies
`[{id:1, name:"Alpha"}]`, reviews `[{movie_title:"Alpha (1999)",
review_score:"B"}]`) the single output review document has no key `id` at
all: preparation renamed the merged foreign-key column to `id_movie`, so
the claim that the document carries `id=1` fails. -/
theorem end_to_end_no_id_key :
    (run_cleaning_reviews [⟨1, "Alpha"⟩] [(.str "Alpha (1999)", .str "B")]).map
        (fun docs => docs.map (fun d => d.lookup "id"))
      = .ok [none] := by decide

/-- C3 amended: the pipeline on that input yields exactly one review
document; it carries the matched movie id `1` under the key `id_movie`
(the `id` column renamed by `prepare_for_database`) and the normalized
score `8` (the integer the grade map assigns to `"B"`, numerically `8.0`)
under `review_score`. -/
theorem end_to_end_alpha_review :
    run_cleaning_reviews [⟨1, "Alpha"⟩] [(.str "Alpha (1999)", .str "B")] =
      .ok [[("movie_title", .str "Alpha (1999)"), ("review_score", .int 8),
            ("id_movie", .int 1)]] := by decide

/-- C9: for both loaders, inserting an empty dataset returns zero and
raises no error, at every batch size: the `df.empty` guard returns before
any database work. -/
theorem insert_empty_returns_zero :
    ∀ b : Int, pg_insert_dataframe 0 b = .ok 0 ∧ mongo_insert_dataframe 0 b = .ok 0 := by
  intro b
  constructor <;> rfl

/-- C10 counterexample: the `total_inserted == 0` branch is reachable —
`self.batch_size` is an arbitrary Python int, and with a negative batch
size (here `-1`) on a one-row input, `range(0, 1, -1)` is empty, no batch
is submitted, the commit succeeds with `total_inserted` still `0`, and
`Inserimento fallito` is raised, refuting the claimed unreachability for
every input. -/
theorem pg_insert_zero_branch_reachable :
    pg_insert_dataframe 1 (-1) = .error "Inserimento fallito" := by decide

/-- C10 amended: whenever `insert_dataframe` completes without error it
returns exactly the row count of its input — the sum of submitted batch
sizes, not database feedback — and in particular returns `n` itself for
every non-empty input and positive batch size; and the internal
`total_inserted == 0` branch raising `Inserimento fallito` is unreachable
for every input with a nonnegative batch size. It is reachable only for a
negative batch size, where `range(0, n, b)` submits no batch at all. -/
theorem pg_insert_returns_row_count (n : Nat) (b : Int) (hn : 0 < n) (hb : 0 < b) :
    pg_insert_dataframe n b = .ok n ∧
    (∀ (m r : Nat) (k : Int), pg_insert_dataframe m k = .ok r → r = m) ∧
    ∀ (m : Nat) (k : Int), 0 ≤ k →
      pg_insert_dataframe m k ≠ .error "Inserimento fallito" := by
  refine ⟨?_, ?_, ?_⟩
  · rw [pg_insert_dataframe, if_neg (by omega), if_neg (by omega),
      if_neg (by rw [chunkSizes_sum n b hb]; omega), chunkSizes_sum n b hb]
  · intro m r k h
    rw [pg_insert_dataframe] at h
    by_cases hm : m = 0
    · rw [if_pos hm] at h
      cases h
      omega
    · rw [if_neg hm] at h
      by_cases hk0 : k = 0
      · rw [if_pos hk0] at h
        exact (Except.noConfusion h)
      · rw [if_neg hk0] at h
        by_cases hz : (chunkSizes m k).sum = 0
        · rw [if_pos hz] at h
          exact (Except.noConfusion h)
        · rw [if_neg hz] at h
          cases h
          by_cases hkpos : 0 < k
          · exact chunkSizes_sum m k hkpos
          · exact absurd (by rw [chunkSizes, if_pos (by omega)]; rfl) hz
  · intro m k hk
    rw [pg_insert_dataframe]
    by_cases hm : m = 0
    · rw [if_pos hm]
      intro hcon
      exact (Except.noConfusion hcon)
    · rw [if_neg hm]
      by_cases hk0 : k = 0
      · rw [if_pos hk0]
        intro hcon
        injection hcon with hs
        exact absurd hs (by decide)
      · rw [if_neg hk0,
          if_neg (by rw [chunkSizes_sum m k (by omega)]; omega)]
        intro hcon
        exact (Except.noConfusion hcon)

/-- Witness for C10 at three rows and batch size two (batches of sizes two
and one). -/
theorem pg_insert_returns_row_count_witness :
    pg_insert_dataframe 3 2 = .ok 3 ∧
    (∀ (m r : Nat) (k : Int), pg_insert_dataframe m k = .ok r → r = m) ∧
    ∀ (m : Nat) (k : Int), 0 ≤ k →
      pg_insert_dataframe m k ≠ .error "Inserimento fallito" :=
  pg_insert_returns_row_count 3 2 (by decide) (by decide)

/-- C4 counterexample: score normalization is not total — the string
`"1/2/3"` contains a slash, so the tuple unpacking
`num, denom = value.split('/')` runs outside the `try` block and raises an
uncaught `ValueError`, refuting the claim that the function never throws. -/
theorem converter_throws_on_double_slash :
    converter (.str "1/2/3") = .error "ValueError: too many values to unpack" := by
  decide

/-- C4 amended: score normalization never throws on numeric inputs, on the
float `nan`, or on any string whose slash-split has at most two pieces (at
most one `/`); a string splitting into three or more pieces raises an
uncaught `ValueError` from tuple unpacking. All the enumerated invalid
values map to the missing marker: a plain numeric outside `0`–`10`, a
fractional string with a zero denominator, a fraction whose rescaled value
exceeds `10`, and a string that is neither a fraction nor a recognized
letter grade. -/
theorem normalize_score_missing_markers :
    (∀ i : ℤ, ∃ v, converter (.int i) = .ok v) ∧
    (∀ q : ℚ, ∃ v, converter (.float q) = .ok v) ∧
    (∃ v, converter PyVal.nan = .ok v) ∧
    (∀ s : String, (splitOnSlash s.toList []).length ≤ 2 →
      ∃ v, converter (.str s) = .ok v) ∧
    (∀ i : ℤ, (10 < i ∨ i < 0) → converter (.int i) = .ok .nan) ∧
    (∀ q : ℚ, (10 < q ∨ q < 0) → converter (.float q) = .ok .nan) ∧
    (∀ s : String, ∀ num denom : List Char, s.toList.contains '/' = true →
      splitOnSlash s.toList [] = [num, denom] → pyFloat denom = some 0 →
      converter (.str s) = .ok .nan) ∧
    (∀ s : String, ∀ num denom : List Char, ∀ a d : ℚ,
      s.toList.contains '/' = true → splitOnSlash s.toList [] = [num, denom] →
      pyFloat num = some a → pyFloat denom = some d → d ≠ 0 → 10 < a / d * 10 →
      converter (.str s) = .ok .nan) ∧
    (∀ s : String, s.toList.contains '/' = false → mappa_lettere.lookup s = none →
      converter (.str s) = .ok .nan) := by
  refine ⟨?_, ?_, ⟨_, rfl⟩, ?_, ?_, ?_, ?_, ?_, ?_⟩
  · intro i
    rw [converter]
    split
    · exact ⟨_, rfl⟩
    · exact ⟨_, rfl⟩
  · intro q
    rw [converter]
    split
    · exact ⟨_, rfl⟩
    · exact ⟨_, rfl⟩
  · intro s hlen
    rw [converter]
    by_cases hc : s.toList.contains '/' = true
    · rw [if_pos hc]
      have hm : '/' ∈ s.toList := by simpa using hc
      have hcnt : 0 < s.toList.count '/' := List.count_pos_iff.mpr hm
      rw [splitOnSlash_length] at hlen
      have hlen2 : (splitOnSlash s.toList []).length = 2 := by
        rw [splitOnSlash_length]
        omega
      rcases List.length_eq_two.mp hlen2 with ⟨num, denom, hnd⟩
      rw [hnd]
      exact converterFrac_ok num denom
    · rw [if_neg hc]
      cases hl : mappa_lettere.lookup s with
      | some w => exact ⟨_, rfl⟩
      | none => exact ⟨_, rfl⟩
  · intro i hi
    rw [converter,
      if_pos (by simp only [Bool.or_eq_true, decide_eq_true_eq]; exact hi)]
  · intro q hq
    rw [converter,
      if_pos (by simp only [Bool.or_eq_true, decide_eq_true_eq]; exact hq)]
  · intro s num denom hc hs hd0
    rw [converter, if_pos hc, hs]
    show converterFrac num denom = .ok .nan
    rw [converterFrac]
    cases hpn : pyFloat num with
    | none => simp [hpn]
    | some a => simp [hpn, hd0]
  · intro s num denom a d hc hs ha hd hdz hgt
    rw [converter, if_pos hc, hs]
    show converterFrac num denom = .ok .nan
    rw [converterFrac]
    simp only [ha, hd]
    rw [if_neg hdz, if_pos (by rw [qmul_eq, qdiv_eq]; exact hgt)]
  · intro s hc hl
    rw [converter,
      if_neg (fun hcon => by rw [hc] at hcon; exact Bool.noConfusion hcon), hl]

/-- Witness for C4 at the over-scale fraction `"11/10"`: every hypothesis
of the rescaled-above-maximum clause holds there, and the result is the
missing marker. -/
theorem normalize_score_missing_markers_witness :
    converter (.str "11/10") = .ok .nan :=
  normalize_score_missing_markers.2.2.2.2.2.2.2.1 "11/10" ['1', '1'] ['1', '0']
    11 10 (by decide) (by decide) (by decide) (by decide) (by norm_num) (by norm_num)

/-- C5: the point equations of score normalization — `"8/10"` yields `8.0`,
`"5/0"` and the numeric `11` and the unknown grade `"Z"` yield the missing
marker, `"B+"` yields `8.5` — and every value returned through the
fractional branch is a whole number of tenths, that is rounded to one
decimal place. -/
theorem normalize_score_point_values :
    converter (.str "8/10") = .ok (.float 8) ∧
    converter (.str "5/0") = .ok PyVal.nan ∧
    converter (.int 11) = .ok PyVal.nan ∧
    converter (.str "B+") = .ok (.float (mkRat 17 2)) ∧
    converter (.str "Z") = .ok PyVal.nan ∧
    ∀ s : String, ∀ v : ℚ, s.toList.contains '/' = true →
      converter (.str s) = .ok (.float v) → ∃ n : ℤ, v = (n : ℚ) / 10 := by
  refine ⟨by decide, by decide, by decide, by decide, by decide, ?_⟩
  intro s v hc h
  rw [converter, if_pos hc] at h
  split at h
  · exact converterFrac_float_tenths _ _ v h
  · exact (Except.noConfusion h)

/-- Witness for C5's fractional-rounding clause at `"8/10"`, whose returned
value `8` is eighty tenths. -/
theorem normalize_score_point_values_witness :
    ∃ n : ℤ, (8 : ℚ) = (n : ℚ) / 10 :=
  normalize_score_point_values.2.2.2.2.2 "8/10" 8 (by decide) (by decide)

/-- C6 counterexample: idempotence fails on the fractional encoding
`"-5/10"` — the code returns `-5.0` for it (the over-maximum check only
bounds above), and re-applying the normalizer to `-5.0` yields the missing
marker, not `-5.0`. -/
theorem normalize_score_not_idempotent :
    converter (.str "-5/10") = .ok (.float (-5)) ∧
    converter (.float (-5)) = .ok PyVal.nan ∧ PyVal.float (-5) ≠ PyVal.nan := by
  refine ⟨by decide, by decide, by decide⟩

/-- C6 amended: score normalization is idempotent on every valid encoding
whose normalized value is nonnegative: whenever the normalizer returns a
numeric output `v` with nonnegative value, re-applying it to `v` (the
output re-interpreted as a plain number) returns `v` unchanged. Every
numeric output is at most `10`, so nonnegativity is the only extra
condition; negative fractions such as `"-5/10"` are the exceptions. -/
theorem normalize_score_idempotent_on_nonneg (x v : PyVal) (q : ℚ)
    (h : converter x = .ok v) (hv : numVal v = some q) (hq : 0 ≤ q) :
    converter v = .ok v := by
  cases v with
  | int i =>
      have hle := (converter_ok_le_ten x _ h).1 i rfl
      have h0 : 0 ≤ i := by
        rw [numVal] at hv
        injection hv with hv2
        rw [← hv2] at hq
        exact_mod_cast hq
      rw [converter, if_neg]
      simp only [Bool.or_eq_true, decide_eq_true_eq]
      omega
  | float p =>
      have hle := (converter_ok_le_ten x _ h).2 p rfl
      have h0 : 0 ≤ p := by
        rw [numVal] at hv
        injection hv with hv2
        rw [← hv2] at hq
        exact hq
      rw [converter, if_neg]
      simp only [Bool.or_eq_true, decide_eq_true_eq]
      rintro (h1 | h2)
      · exact absurd h1 (not_lt.mpr hle)
      · exact absurd h2 (not_lt.mpr h0)
  | nan => exact (Option.noConfusion hv)
  | str t => exact (Option.noConfusion hv)

/-- Witness for C6 at `"8/10"`: the output `8.0` re-normalizes to itself. -/
theorem normalize_score_idempotent_witness :
    converter (.float 8) = .ok (.float 8) :=
  normalize_score_idempotent_on_nonneg (.str "8/10") (.float 8) 8
    (by decide) rfl (by norm_num)

/-- C7: after preparation, pairwise over the dataset collection, every
dataset other than the primary `movies` table has each column literally
named `id` renamed to `id_movie` (and its other columns unchanged, which
the map expresses uniformly whether or not an `id` column exists), while
the `movies` table's columns — its `id` column included — are unchanged. -/
theorem preparer_renames_id (data out : List (String × Frame))
    (h : prepare_for_database data = .ok out) :
    List.Forall₂ (fun p q : String × Frame =>
      q.1 = p.1 ∧
      (p.1 ≠ "movies" → q.2.columns =
        p.2.columns.map (fun c => if c = "id" then "id_movie" else c)) ∧
      (p.1 = "movies" → q.2.columns = p.2.columns)) data out := by
  refine (prepare_for_database_ok data out h).imp ?_
  intro p q hr
  refine ⟨hr.1, ?_, ?_⟩
  · intro hne
    rw [hr.2.1]
    by_cases hid : p.2.columns.contains "id" = true
    · rw [prepare_rename,
        if_pos (by rw [Bool.and_eq_true]; exact ⟨decide_eq_true hne, hid⟩)]
    · rw [prepare_rename,
        if_neg (fun hcon => hid (Bool.and_eq_true _ _ ▸ hcon).2),
        map_rename_id_of_not_contains _ (by simpa using hid)]
  · intro hmov
    rw [hr.2.1, prepare_rename, if_neg (by simp [hmov])]

/-- Witness for C7: a two-dataset collection in which `actors` has its `id`
column renamed to `id_movie` while `movies` keeps its columns. -/
theorem preparer_renames_id_witness :
    List.Forall₂ (fun p q : String × Frame =>
      q.1 = p.1 ∧
      (p.1 ≠ "movies" → q.2.columns =
        p.2.columns.map (fun c => if c = "id" then "id_movie" else c)) ∧
      (p.1 = "movies" → q.2.columns = p.2.columns))
      [("movies", ⟨["id", "name"], [[.int 1, .str "A"]]⟩),
       ("actors", ⟨["id", "name"], [[.int 1, .str "B"]]⟩)]
      [("movies", ⟨["id", "name"], [[.int 1, .str "A"]]⟩),
       ("actors", ⟨["id_movie", "name"], [[.int 1, .str "B"]]⟩)] :=
  preparer_renames_id _ _ (by decide)

/-- C8: in the orchestrator, a run over prepared data that completes both
sink loads reports strictly positive inserted totals for both sinks: a
zero cumulative total in either sink raises instead of being reported as
success. The premise that the data went through `prepare_for_database`
matters: the in-loop `pg_total == 0` check is skipped (by `continue`) for
an empty dataset, and it is preparation that guarantees no dataset is
empty. -/
theorem orchestrator_zero_total_fatal (raw cleaned : List (String × Frame))
    (b : Int) (pg mg : Nat) (hprep : prepare_for_database raw = .ok cleaned)
    (hrun : mainLoads cleaned b = .ok (pg, mg)) : 0 < pg ∧ 0 < mg := by
  rw [mainLoads] at hrun
  cases hpg : pgLoad cleaned b with
  | error e => rw [hpg] at hrun; exact (Except.noConfusion hrun)
  | ok pgv =>
      rw [hpg] at hrun
      cases hmg : mongoLoad cleaned b with
      | error e => rw [hmg] at hrun; exact (Except.noConfusion hrun)
      | ok mgv =>
          rw [hmg] at hrun
          cases hrun
          constructor
          · rw [pgLoad, pg_tables, pgLoop] at hpg
            cases hl : cleaned.lookup "movies" with
            | some df =>
                simp only [hl] at hpg
                rw [if_neg (by
                  rw [prepare_lookup_nonempty raw cleaned "movies" df hprep hl]
                  exact Bool.false_ne_true)] at hpg
                cases hins : pg_insert_dataframe df.rows.length b with
                | error e =>
                    simp only [hins] at hpg
                    exact (Except.noConfusion hpg)
                | ok ins =>
                    simp only [hins] at hpg
                    by_cases hz : ins = 0
                    · rw [if_pos hz] at hpg
                      exact (Except.noConfusion hpg)
                    · rw [if_neg hz, if_neg (by omega)] at hpg
                      exact pgLoop_pos cleaned b _ (0 + ins) pg (by omega) hpg
            | none =>
                simp only [hl, if_true] at hpg
                exact (Except.noConfusion hpg)
          · rw [mongoLoad] at hmg
            split at hmg
            · exact (Except.noConfusion hmg)
            · split at hmg
              · exact (Except.noConfusion hmg)
              · split at hmg
                · exact (Except.noConfusion hmg)
                · cases hmg
                  omega

/-- Witness for C8: prepared data holding a one-row `movies` table and a
one-row review set loads one record into each sink. -/
theorem orchestrator_zero_total_fatal_witness : 0 < 1 ∧ 0 < 1 :=
  orchestrator_zero_total_fatal
    [("movies", ⟨["id"], [[.int 1]]⟩),
     ("rotten_tomatoes_reviews", ⟨["movie_title"], [[.str "x"]]⟩)]
    [("movies", ⟨["id"], [[.int 1]]⟩),
     ("rotten_tomatoes_reviews", ⟨["movie_title"], [[.str "x"]]⟩)]
    1000 1 1 (by decide) (by decide)

end Spec2Proof
